import Mathlib

/-!
Verification of the in-memory service-registry core (src/registry.go) against
its natural-language specification.  The Go code is shallowly embedded: the
two `map[string]*T` tables become association lists with unique keys, `int64`
timestamps become `Int`, the `uint32` status bitmask becomes `Nat` (only
bitwise AND and comparisons touch it), in-place pointer mutation becomes
explicit state passing, and the one runtime panic reachable in `Fetch`
(a nil-pointer dereference) is modelled as the `none` outcome of an `Option`.
-/

namespace RegistryCenter

/-- Embeds `Instance` (src/registry.go:24): one service endpoint together with
its lifecycle timestamps.  Go `int64` timestamps are modelled as `Int` and the
`uint32` status bitmask as `Nat`. -/
structure Instance where
  Env : String
  AppId : String
  Hostname : String
  Addrs : List String
  Version : String
  Status : Nat
  RegTimestamp : Int
  UpTimestamp : Int
  RenewTimestamp : Int
  DirtyTimestamp : Int
  LatestTimestamp : Int
deriving DecidableEq

/-- Embeds `Application` (src/registry.go:17): the Go `map[string]*Instance`
keyed by hostname is modelled as an association list; the lock is irrelevant
in this sequential embedding. -/
structure Application where
  appId : String
  instances : List (String × Instance)
  latestTimestamp : Int
deriving DecidableEq

/-- Embeds `Registry` (src/registry.go:12): the Go `map[string]*Application`
keyed by `appId + "-" + env` is modelled as an association list. -/
structure Registry where
  apps : List (String × Application)
deriving DecidableEq

instance {ε α : Type} [DecidableEq ε] [DecidableEq α] : DecidableEq (Except ε α) := fun x y =>
  match x, y with
  | .error a, .error b =>
    if h : a = b then .isTrue (by rw [h]) else .isFalse (fun he => h (Except.error.inj he))
  | .ok a, .ok b =>
    if h : a = b then .isTrue (by rw [h]) else .isFalse (fun he => h (Except.ok.inj he))
  | .error _, .ok _ => .isFalse (fun he => Except.noConfusion he)
  | .ok _, .error _ => .isFalse (fun he => Except.noConfusion he)

/-- Go map lookup `v, ok := m[k]` on the association-list model. -/
def alookup {α : Type} : List (String × α) → String → Option α
  | [], _ => none
  | (k₀, v) :: t, k => if k₀ = k then some v else alookup t k

/-- Go map assignment `m[k] = v`: replace the binding if the key is present,
otherwise add a new binding. -/
def aupdate {α : Type} : List (String × α) → String → α → List (String × α)
  | [], k, v => [(k, v)]
  | (k₀, v₀) :: t, k, v => if k₀ = k then (k, v) :: t else (k₀, v₀) :: aupdate t k v

/-- Go map deletion `delete(m, k)`. -/
def aerase {α : Type} : List (String × α) → String → List (String × α)
  | [], _ => []
  | (k₀, v₀) :: t, k => if k₀ = k then t else (k₀, v₀) :: aerase t k

/-- Embeds `getKey` (src/registry.go:177): `fmt.Sprintf("%s-%s", appid, env)`. -/
def getKey (appid env : String) : String := appid ++ "-" ++ env

/-- Embeds `NewApplication` (src/registry.go:181); the Go zero value of the
`latestTimestamp` field is 0 and the instance map starts empty. -/
def NewApplication (appid : String) : Application :=
  { appId := appid, instances := [], latestTimestamp := 0 }

/-- Embeds `copyInstance` (src/registry.go:282): a deep copy whose address
list is rebuilt element by element, which at the value level is the identity
map on the list. -/
def copyInstance (src : Instance) : Instance :=
  { src with Addrs := src.Addrs.map id }

/-- Embeds `Application.AddInstance` (src/registry.go:187).  When the hostname
already exists, the incoming instance first inherits the stored
`UpTimestamp`; if its `DirtyTimestamp` is strictly smaller than the stored
one, the stored record is kept instead (`in = appIns`).  The (possibly
substituted) instance is stored under its own `Hostname` field, the
Application `latestTimestamp` is set to the caller-supplied value, and a copy
of the stored instance plus the `isNew` flag is returned. -/
def AddInstance (app : Application) (inst : Instance) (latestTimestamp : Int) :
    Application × Instance × Bool :=
  match alookup app.instances inst.Hostname with
  | some appIns =>
    let inUp := { inst with UpTimestamp := appIns.UpTimestamp }
    let inFinal := if inUp.DirtyTimestamp < appIns.DirtyTimestamp then appIns else inUp
    ({ app with instances := aupdate app.instances inFinal.Hostname inFinal,
                latestTimestamp := latestTimestamp }, inFinal, false)
  | none =>
    ({ app with instances := aupdate app.instances inst.Hostname inst,
                latestTimestamp := latestTimestamp }, inst, true)

/-- Embeds `Registry.Register` (src/registry.go:105): look up or lazily create
the Application, delegate the upsert to `AddInstance`, and unconditionally
store the Application back under its key.  The Go version always returns a
nil error, so the error component is omitted. -/
def Registry.Register (r : Registry) (inst : Instance) (latestTimestamp : Int) :
    Registry × Application :=
  let key := getKey inst.AppId inst.Env
  let app := match alookup r.apps key with
    | some a => a
    | none => NewApplication inst.AppId
  let res := AddInstance app inst latestTimestamp
  (⟨aupdate r.apps key res.1⟩, res.1)

/-- Embeds `FetchData` (src/registry.go:212): the incremental-fetch envelope. -/
structure FetchData where
  Instances : List Instance
  LatestTimestamp : Int
deriving DecidableEq

/-- Embeds `Application.GetInstance` (src/registry.go:217): fails when the
caller-supplied timestamp is not strictly below the Application's
`latestTimestamp`; otherwise filters the instances through the status
bitmask, fails when nothing matched, and returns deep copies of the matches
together with the current `latestTimestamp`. -/
def GetInstance (app : Application) (status : Nat) (latestTime : Int) :
    Except String FetchData :=
  if app.latestTimestamp ≤ latestTime then .error "latest timestamp is not latest"
  else if ((app.instances.map Prod.snd).filter
      (fun i => decide (0 < status &&& i.Status))).map copyInstance = [] then
    .error "not exist condition instance"
  else .ok { Instances := ((app.instances.map Prod.snd).filter
               (fun i => decide (0 < status &&& i.Status))).map copyInstance,
             LatestTimestamp := app.latestTimestamp }

/-- Embeds `Registry.getApplication` (src/registry.go:169). -/
def getApplication (r : Registry) (appid env : String) : Option Application :=
  alookup r.apps (getKey appid env)

/-- Embeds `Registry.Fetch` (src/registry.go:126).  When `app.GetInstance`
fails, the Go code receives a nil `*FetchData` in `c` and then evaluates
`c.Instances` on that nil pointer, a runtime nil-pointer panic; the panic
outcome is modelled as `none`, a normal return as `some`. -/
def Fetch (r : Registry) (env appid : String) (status : Nat) (latestTimestamp : Int) :
    Option (Except String (List Instance)) :=
  match getApplication r appid env with
  | none => some (.error "app not found")
  | some app =>
    match GetInstance app status latestTimestamp with
    | .error _ => none
    | .ok c => some (.ok c.Instances)

/-- Embeds `Application.Cancel` (src/registry.go:241): on success, removes the
hostname, stamps the removed instance's `LatestTimestamp`, advances the
Application's `latestTimestamp`, and reports the remaining instance count. -/
def Application.Cancel (app : Application) (hostname : String) (latestTimestamp : Int) :
    Option (Instance × Application × Nat) :=
  match alookup app.instances hostname with
  | none => none
  | some appIn =>
    let rest := aerase app.instances hostname
    some ({ appIn with LatestTimestamp := latestTimestamp },
          { app with instances := rest, latestTimestamp := latestTimestamp },
          rest.length)

/-- Embeds `Registry.Cancel` (src/registry.go:136).  In Go the Application is
mutated in place; the pure model writes the mutated Application back, and
deletes the registry entry when the remaining instance count is zero. -/
def Registry.Cancel (r : Registry) (env appid hostname : String) (latestTimestamp : Int) :
    Except String Instance × Registry :=
  match getApplication r appid env with
  | none => (.error "app not found", r)
  | some app =>
    match app.Cancel hostname latestTimestamp with
    | none => (.error "instance not found", r)
    | some (inst, app', insLen) =>
      if insLen = 0 then (.ok inst, ⟨aerase r.apps (getKey appid env)⟩)
      else (.ok inst, ⟨aupdate r.apps (getKey appid env) app'⟩)

/-- Embeds `Application.Renew` (src/registry.go:257): sets the stored
instance's `RenewTimestamp` to the current wall-clock time (passed in as
`now`) and returns a deep copy; the Application's `latestTimestamp` is not
touched. -/
def Application.Renew (app : Application) (hostname : String) (now : Int) :
    Option (Instance × Application) :=
  match alookup app.instances hostname with
  | none => none
  | some appIn =>
    let appIn' := { appIn with RenewTimestamp := now }
    some (copyInstance appIn', { app with instances := aupdate app.instances hostname appIn' })

/-- Embeds `Registry.Renew` (src/registry.go:157). -/
def Registry.Renew (r : Registry) (env appid hostname : String) (now : Int) :
    Except String Instance × Registry :=
  match getApplication r appid env with
  | none => (.error "app not found", r)
  | some app =>
    match app.Renew hostname now with
    | none => (.error "instance not found", r)
    | some (inst, app') => (.ok inst, ⟨aupdate r.apps (getKey appid env) app'⟩)

/-- Embeds `int64(90 * time.Second)` (src/registry.go:71): 90 seconds in
nanoseconds, the staleness threshold of the eviction loop. -/
def staleThreshold : Int := 90000000000

def totalLen : List (String × Application) → Nat
  | [] => 0
  | p :: rest => p.2.instances.length + totalLen rest

/-- Total number of stored instances across all applications, the
`registryLen` accumulated by `evict` (src/registry.go:66-69). -/
def totalInstances (r : Registry) : Nat := totalLen r.apps

/-- Embeds the expired-snapshot collection of `evict` (src/registry.go:63-75):
every stored instance with `now - RenewTimestamp > staleThreshold`, collected
application by application (`GetAllInstances` returns value copies, which the
value-level embedding renders as the stored values themselves). -/
def expiredL (now : Int) : List (String × Application) → List Instance
  | [] => []
  | p :: rest =>
    ((p.2.instances.map Prod.snd).filter
        (fun i => decide (staleThreshold < now - i.RenewTimestamp))) ++ expiredL now rest

def expiredOf (r : Registry) (now : Int) : List Instance := expiredL now r.apps

/-- One step of the partial Fisher-Yates selection in `evict`
(src/registry.go:86-89): the working list is `x :: t` and the drawn index is
`j`; the element at position `j` is selected and the former front element is
swapped into its slot. -/
def swapPick {α : Type} (x : α) (t : List α) : Nat → α × List α
  | 0 => (x, t)
  | j + 1 => (t.getD j x, t.set j x)

/-- The sequence of expired instances selected by one eviction pass.  The
argument `f` models the stream of values produced by `rand.Intn`; since
`rand.Intn m` always lies in `[0, m)`, the draw is reduced `% m` to keep the
model total for arbitrary `f`. -/
def selectExpired {α : Type} : List α → Nat → (Nat → Nat) → List α
  | _, 0, _ => []
  | [], _ + 1, _ => []
  | x :: t, k + 1, f =>
    let p := swapPick x t (f 0 % (x :: t).length)
    p.1 :: selectExpired p.2 k (fun i => f (i + 1))

/-- The eviction loop's per-instance action (src/registry.go:90):
`r.Cancel(instance.Env, instance.AppId, instance.Hostname, now)` for each
selected instance, with the error result swallowed. -/
def cancelAll (r : Registry) (l : List Instance) (now : Int) : Registry :=
  l.foldl (fun s i => (Registry.Cancel s i.Env i.AppId i.Hostname now).2) r

/-- Embeds `Registry.evict` (src/registry.go:61).  The cap
`registryLen - int(float64(registryLen)*0.85)` is embedded as the exact
integer arithmetic `n - n*85/100`: the double nearest 0.85 lies below it by
about 2.6e-17 relatively, far less than half an ulp, so for every population
size up to about 2^45 the rounded product `float64(n)*0.85` truncates to
`floor(n*17/20)` (it rounds to the exact value whenever `n*0.85` is integral
and otherwise stays well inside the 0.05 gap below the next integer). -/
def evict (r : Registry) (now : Int) (f : Nat → Nat) : Registry :=
  let expiredInstances := expiredOf r now
  let registryLen := totalInstances r
  let evictionLimit := registryLen - registryLen * 85 / 100
  let expiredLen := if expiredInstances.length > evictionLimit then evictionLimit
    else expiredInstances.length
  if expiredLen = 0 then r
  else cancelAll r (selectExpired expiredInstances expiredLen f) now

/-- A well-formed application entry: hostname keys are unique and every stored
instance's identity fields agree with the keys it is stored under.  Both maps
in the Go code are keyed by exactly these fields, so every state the code
builds satisfies this. -/
def appEntryOk (p : String × Application) : Prop :=
  (p.2.instances.map Prod.fst).Nodup ∧
  ∀ q ∈ p.2.instances, getKey q.2.AppId q.2.Env = p.1 ∧ q.2.Hostname = q.1

/-- A well-formed registry: unique application keys and well-formed entries. -/
def WF (r : Registry) : Prop :=
  (r.apps.map Prod.fst).Nodup ∧ ∀ p ∈ r.apps, appEntryOk p

instance : DecidablePred appEntryOk := fun p => by unfold appEntryOk; infer_instance

instance (r : Registry) : Decidable (WF r) := by unfold WF; infer_instance

/-- Instance `i` is currently stored in the registry under its own identity
fields. -/
def storedIn (r : Registry) (i : Instance) : Prop :=
  ∃ app, alookup r.apps (getKey i.AppId i.Env) = some app ∧
    alookup app.instances i.Hostname = some i

/-- The structural invariant of claim C4: unique application keys, and every
application entry present in the registry map has a non-empty instance map. -/
def Inv (r : Registry) : Prop :=
  (r.apps.map Prod.fst).Nodup ∧ ∀ p ∈ r.apps, p.2.instances ≠ []

/-- States reachable from the empty registry by any sequence of Register,
Cancel, Renew and eviction-pass operations (Fetch does not mutate state). -/
inductive Reachable : Registry → Prop where
  | init : Reachable ⟨[]⟩
  | register (r : Registry) (i : Instance) (t : Int) :
      Reachable r → Reachable (Registry.Register r i t).1
  | cancel (r : Registry) (e a h : String) (t : Int) :
      Reachable r → Reachable (Registry.Cancel r e a h t).2
  | renew (r : Registry) (e a h : String) (now : Int) :
      Reachable r → Reachable (Registry.Renew r e a h now).2
  | evictPass (r : Registry) (now : Int) (f : Nat → Nat) :
      Reachable r → Reachable (evict r now f)

/-- Concrete one-instance application used to exercise the degraded Fetch
paths: the application's freshness token is 5 and its only instance has
status bit 1. -/
def iC1 : Instance :=
  { Env := "e", AppId := "a", Hostname := "h", Addrs := ["addr"], Version := "v",
    Status := 1, RegTimestamp := 1, UpTimestamp := 1, RenewTimestamp := 1,
    DirtyTimestamp := 1, LatestTimestamp := 1 }

def appC1 : Application := { appId := "a", instances := [("h", iC1)], latestTimestamp := 5 }

def rC1 : Registry := ⟨[("a-e", appC1)]⟩

/-- Incoming re-registration for the hostname of `iC1` carrying new payload
but a strictly smaller `DirtyTimestamp` (0 < 1). -/
def iC2 : Instance :=
  { iC1 with Addrs := ["other"], Version := "v2", DirtyTimestamp := 0 }

/-- Instance used for the Register/Renew/Fetch scenarios. -/
def i7 : Instance :=
  { Env := "e", AppId := "a", Hostname := "h", Addrs := ["x"], Version := "v",
    Status := 1, RegTimestamp := 1, UpTimestamp := 1, RenewTimestamp := 1,
    DirtyTimestamp := 1, LatestTimestamp := 1 }

def r7 : Registry := (Registry.Register ⟨[]⟩ i7 100).1

def r7r : Registry := (Registry.Renew r7 "e" "a" "h" 777).2

/-- The instance `i7` with only its `RenewTimestamp` advanced to 777. -/
def i7r : Instance := { i7 with RenewTimestamp := 777 }

/-- The application state expected after registering `i7` with freshness
token 100 and then renewing it at time 777. -/
def app7r : Application :=
  { appId := "a", instances := [("h", i7r)], latestTimestamp := 100 }

/-- Two registries holding the identical instance but registered with
different caller-supplied freshness tokens (5 versus 10). -/
def i6 : Instance :=
  { Env := "e", AppId := "a", Hostname := "h", Addrs := ["x"], Version := "v",
    Status := 1, RegTimestamp := 0, UpTimestamp := 0, RenewTimestamp := 0,
    DirtyTimestamp := 0, LatestTimestamp := 0 }

def r6a : Registry := (Registry.Register ⟨[]⟩ i6 5).1

def r6b : Registry := (Registry.Register ⟨[]⟩ i6 10).1

/-- Instance whose `(appId, env)` pair is `("a", "b-c")`: its registry key
collides with the key of the distinct pair `("a-b", "c")`. -/
def i9 : Instance :=
  { Env := "b-c", AppId := "a", Hostname := "h1", Addrs := ["x"], Version := "v",
    Status := 1, RegTimestamp := 0, UpTimestamp := 0, RenewTimestamp := 0,
    DirtyTimestamp := 0, LatestTimestamp := 0 }

def r9 : Registry := (Registry.Register ⟨[]⟩ i9 10).1

/-- Two-instance registry for the eviction witnesses: at `now = 200e9`,
`iE1` (renewed at 0) is expired and `iE2` (renewed at 195e9) is fresh. -/
def iE1 : Instance :=
  { Env := "e", AppId := "a", Hostname := "h1", Addrs := [], Version := "v",
    Status := 1, RegTimestamp := 0, UpTimestamp := 0, RenewTimestamp := 0,
    DirtyTimestamp := 0, LatestTimestamp := 0 }

def iE2 : Instance :=
  { iE1 with Hostname := "h2", RenewTimestamp := 195000000000 }

def rE : Registry :=
  ⟨[("a-e", { appId := "a", instances := [("h1", iE1), ("h2", iE2)], latestTimestamp := 5 })]⟩

/-- Reachable single-instance registry: `i7` registered into the empty
registry with freshness token 5. -/
def rW4 : Registry := (Registry.Register ⟨[]⟩ i7 5).1

/-- The application stored in `rW4`. -/
def appW4 : Application :=
  { appId := "a", instances := [("h", i7)], latestTimestamp := 5 }

/-- Single-instance registry whose only instance is expired: a whole eviction
pass then removes 100 percent of the population. -/
def rD : Registry :=
  ⟨[("a-e", { appId := "a", instances := [("h1", iE1)], latestTimestamp := 0 })]⟩

theorem alookup_aupdate_self {α : Type} (l : List (String × α)) (k : String) (v : α) :
    alookup (aupdate l k v) k = some v := by
  induction l with
  | nil => simp [aupdate, alookup]
  | cons p t ih =>
    obtain ⟨k₀, v₀⟩ := p
    by_cases h : k₀ = k
    · simp [aupdate, h, alookup]
    · simp [aupdate, h, alookup, ih]

theorem alookup_aupdate_ne {α : Type} (l : List (String × α)) {k k' : String} (v : α)
    (h : k' ≠ k) : alookup (aupdate l k v) k' = alookup l k' := by
  induction l with
  | nil => simp [aupdate, alookup, Ne.symm h]
  | cons p t ih =>
    obtain ⟨k₀, v₀⟩ := p
    by_cases h₀ : k₀ = k
    · subst h₀
      simp [aupdate, alookup, Ne.symm h]
    · simp only [aupdate, if_neg h₀, alookup]
      by_cases h₁ : k₀ = k'
      · simp [h₁]
      · simp [h₁, ih]

theorem alookup_aerase_ne {α : Type} (l : List (String × α)) {k k' : String}
    (h : k' ≠ k) : alookup (aerase l k) k' = alookup l k' := by
  induction l with
  | nil => simp [aerase]
  | cons p t ih =>
    obtain ⟨k₀, v₀⟩ := p
    by_cases h₀ : k₀ = k
    · subst h₀
      simp [aerase, alookup, Ne.symm h]
    · simp only [aerase, if_neg h₀, alookup]
      by_cases h₁ : k₀ = k'
      · simp [h₁]
      · simp [h₁, ih]

theorem mem_of_alookup {α : Type} {l : List (String × α)} {k : String} {v : α}
    (h : alookup l k = some v) : (k, v) ∈ l := by
  induction l with
  | nil => simp [alookup] at h
  | cons p t ih =>
    obtain ⟨k₀, v₀⟩ := p
    by_cases h₀ : k₀ = k
    · subst h₀
      simp [alookup] at h
      simp [h]
    · simp only [alookup, if_neg h₀] at h
      exact List.mem_cons_of_mem _ (ih h)

theorem alookup_none_of_not_mem_keys {α : Type} {l : List (String × α)} {k : String}
    (h : k ∉ l.map Prod.fst) : alookup l k = none := by
  induction l with
  | nil => simp [alookup]
  | cons p t ih =>
    obtain ⟨k₀, v₀⟩ := p
    simp only [List.map_cons, List.mem_cons, not_or] at h
    have hne : k₀ ≠ k := fun he => h.1 he.symm
    simp [alookup, hne, ih h.2]

theorem alookup_of_mem {α : Type} {l : List (String × α)} {k : String} {v : α}
    (hmem : (k, v) ∈ l) (hnd : (l.map Prod.fst).Nodup) : alookup l k = some v := by
  induction l with
  | nil => simp at hmem
  | cons p t ih =>
    obtain ⟨k₀, v₀⟩ := p
    simp only [List.map_cons, List.nodup_cons] at hnd
    rcases List.mem_cons.mp hmem with h | h
    · injection h with h1 h2
      subst h1
      subst h2
      simp [alookup]
    · have hne : k₀ ≠ k := by
        intro he
        subst he
        exact hnd.1 (List.mem_map.mpr ⟨(k₀, v), h, rfl⟩)
      simp [alookup, hne, ih h hnd.2]

theorem alookup_aerase_self {α : Type} {l : List (String × α)} (k : String)
    (hnd : (l.map Prod.fst).Nodup) : alookup (aerase l k) k = none := by
  induction l with
  | nil => simp [aerase, alookup]
  | cons p t ih =>
    obtain ⟨k₀, v₀⟩ := p
    simp only [List.map_cons, List.nodup_cons] at hnd
    by_cases h₀ : k₀ = k
    · subst h₀
      simp only [aerase, if_pos rfl]
      exact alookup_none_of_not_mem_keys hnd.1
    · simp [aerase, h₀, alookup, ih hnd.2]

theorem aerase_sublist {α : Type} (l : List (String × α)) (k : String) :
    List.Sublist (aerase l k) l := by
  induction l with
  | nil => simp [aerase]
  | cons p t ih =>
    obtain ⟨k₀, v₀⟩ := p
    by_cases h₀ : k₀ = k
    · simp only [aerase, if_pos h₀]
      exact List.sublist_cons_self (k₀, v₀) t
    · simp only [aerase, if_neg h₀]
      exact List.Sublist.cons₂ (k₀, v₀) ih

theorem mem_aerase {α : Type} {l : List (String × α)} {k : String} {p : String × α}
    (h : p ∈ aerase l k) : p ∈ l := (aerase_sublist l k).subset h

theorem mem_aupdate {α : Type} {l : List (String × α)} {k : String} {v : α}
    {p : String × α} (h : p ∈ aupdate l k v) : p ∈ l ∨ p = (k, v) := by
  induction l with
  | nil => simp [aupdate] at h; simp [h]
  | cons q t ih =>
    obtain ⟨k₀, v₀⟩ := q
    by_cases h₀ : k₀ = k
    · simp only [aupdate, if_pos h₀] at h
      rcases List.mem_cons.mp h with h | h
      · exact Or.inr h
      · exact Or.inl (List.mem_cons_of_mem _ h)
    · simp only [aupdate, if_neg h₀] at h
      rcases List.mem_cons.mp h with h | h
      · exact Or.inl (h ▸ List.mem_cons_self _ _)
      · rcases ih h with h | h
        · exact Or.inl (List.mem_cons_of_mem _ h)
        · exact Or.inr h

theorem mem_keys_aupdate {α : Type} {l : List (String × α)} {k k' : String} {v : α}
    (h : k' ∈ (aupdate l k v).map Prod.fst) : k' ∈ l.map Prod.fst ∨ k' = k := by
  rcases List.mem_map.mp h with ⟨p, hp, he⟩
  rcases mem_aupdate hp with h | h
  · exact Or.inl (he ▸ List.mem_map.mpr ⟨p, h, rfl⟩)
  · subst h
    exact Or.inr he.symm

theorem nodup_keys_aupdate {α : Type} {l : List (String × α)} (k : String) (v : α)
    (hnd : (l.map Prod.fst).Nodup) : ((aupdate l k v).map Prod.fst).Nodup := by
  induction l with
  | nil => simp [aupdate]
  | cons p t ih =>
    obtain ⟨k₀, v₀⟩ := p
    simp only [List.map_cons, List.nodup_cons] at hnd
    by_cases h₀ : k₀ = k
    · subst h₀
      have he : aupdate ((k₀, v₀) :: t) k₀ v = (k₀, v) :: t := by simp [aupdate]
      rw [he, List.map_cons]
      exact List.nodup_cons.mpr ⟨hnd.1, hnd.2⟩
    · simp only [aupdate, if_neg h₀, List.map_cons, List.nodup_cons]
      refine ⟨fun hmem => ?_, ih hnd.2⟩
      rcases mem_keys_aupdate hmem with h | h
      · exact hnd.1 h
      · exact h₀ h

theorem nodup_keys_aerase {α : Type} {l : List (String × α)} (k : String)
    (hnd : (l.map Prod.fst).Nodup) : ((aerase l k).map Prod.fst).Nodup :=
  ((aerase_sublist l k).map Prod.fst).nodup hnd

theorem aupdate_ne_nil {α : Type} (l : List (String × α)) (k : String) (v : α) :
    aupdate l k v ≠ [] := by
  cases l with
  | nil => simp [aupdate]
  | cons p t =>
    obtain ⟨k₀, v₀⟩ := p
    by_cases h₀ : k₀ = k <;> simp [aupdate, h₀]

theorem length_aerase {α : Type} {l : List (String × α)} {k : String} {v : α}
    (h : alookup l k = some v) : (aerase l k).length + 1 = l.length := by
  induction l with
  | nil => simp [alookup] at h
  | cons p t ih =>
    obtain ⟨k₀, v₀⟩ := p
    by_cases h₀ : k₀ = k
    · simp [aerase, h₀]
    · simp only [alookup, if_neg h₀] at h
      simp [aerase, h₀, ← ih h]

theorem alookup_some_length_pos {α : Type} {l : List (String × α)} {k : String} {v : α}
    (h : alookup l k = some v) : 0 < l.length := by
  cases l with
  | nil => simp [alookup] at h
  | cons p t => simp

theorem fetch_congr (r₁ r₂ : Registry) (e a : String) (st : Nat) (ts : Int)
    (h : getApplication r₁ a e = getApplication r₂ a e) :
    Fetch r₁ e a st ts = Fetch r₂ e a st ts := by
  unfold Fetch
  rw [h]

/-- Claim C1 (code_bug).  The spec says Fetch surfaces NotFresh and
NoMatchingInstance as ordinary errors and never panics.  `Application.
GetInstance` does return those errors, but `Registry.Fetch` then evaluates
`c.Instances` on the nil `*FetchData` it received alongside the error
(src/registry.go:131-132), a nil-pointer dereference panic, modelled here as
the `none` outcome.  Only the AppNotFound path returns normally. -/
theorem fetch_panics_on_degraded_paths :
    GetInstance appC1 1 5 = .error "latest timestamp is not latest" ∧
    GetInstance appC1 4 0 = .error "not exist condition instance" ∧
    Fetch rC1 "e" "a" 1 5 = none ∧
    Fetch rC1 "e" "a" 4 0 = none ∧
    Fetch rC1 "e" "zzz" 1 0 = some (.error "app not found") := by decide

/-- Claim C2 (confirmed).  A Register whose incoming `DirtyTimestamp` is
strictly below the stored instance's keeps the stored record bit-for-bit
(src/registry.go:194-197 substitutes `in = appIns`) while the Application's
`latestTimestamp` is still set to the caller-supplied value
(src/registry.go:201). -/
theorem register_stale_dirty_keeps_existing_record
    (r : Registry) (inc stored : Instance) (app : Application) (lt : Int)
    (happ : getApplication r inc.AppId inc.Env = some app)
    (hstored : alookup app.instances inc.Hostname = some stored)
    (hdirty : inc.DirtyTimestamp < stored.DirtyTimestamp) :
    alookup (Registry.Register r inc lt).2.instances inc.Hostname = some stored ∧
    (Registry.Register r inc lt).2.latestTimestamp = lt ∧
    getApplication (Registry.Register r inc lt).1 inc.AppId inc.Env =
      some (Registry.Register r inc lt).2 := by
  have hkey : alookup r.apps (getKey inc.AppId inc.Env) = some app := happ
  have happ2 : (Registry.Register r inc lt).2 =
      { app with instances := aupdate app.instances stored.Hostname stored,
                 latestTimestamp := lt } := by
    simp [Registry.Register, AddInstance, hkey, hstored, hdirty]
  have hreg1 : (Registry.Register r inc lt).1 =
      ⟨aupdate r.apps (getKey inc.AppId inc.Env) (Registry.Register r inc lt).2⟩ := rfl
  refine ⟨?_, ?_, ?_⟩
  · rw [happ2]
    dsimp only
    by_cases hh : stored.Hostname = inc.Hostname
    · rw [hh, alookup_aupdate_self]
    · rw [alookup_aupdate_ne _ _ (fun he => hh he.symm), hstored]
  · rw [happ2]
  · rw [hreg1]
    exact alookup_aupdate_self ..

theorem register_stale_dirty_keeps_existing_record_w :
    alookup (Registry.Register rC1 iC2 50).2.instances iC2.Hostname = some iC1 ∧
    (Registry.Register rC1 iC2 50).2.latestTimestamp = 50 ∧
    getApplication (Registry.Register rC1 iC2 50).1 iC2.AppId iC2.Env =
      some (Registry.Register rC1 iC2 50).2 :=
  register_stale_dirty_keeps_existing_record rC1 iC2 iC1 appC1 50
    (by decide) (by decide) (by decide)

/-- Claim C10 (confirmed).  When the Application exists but the hostname does
not, `Application.Cancel` returns before mutating anything
(src/registry.go:245-248) and `Registry.Cancel` returns the
instance-not-found error before the empty-check (src/registry.go:144-146),
so the registry value is returned unchanged. -/
theorem cancel_missing_instance_is_noop
    (r : Registry) (app : Application) (e a h : String) (t : Int)
    (happ : getApplication r a e = some app)
    (hmiss : alookup app.instances h = none) :
    Registry.Cancel r e a h t = (.error "instance not found", r) := by
  simp only [Registry.Cancel, happ, Application.Cancel, hmiss]

theorem cancel_missing_instance_is_noop_w :
    Registry.Cancel rC1 "e" "a" "nope" 9 = (.error "instance not found", rC1) :=
  cancel_missing_instance_is_noop rC1 appC1 "e" "a" "nope" 9 (by decide) (by decide)

/-- Claim C7 (code_bug).  The frame part of the claim holds: after an
intervening Renew, only the target instance's `RenewTimestamp` has changed,
the Application's `latestTimestamp` is still the value supplied at Register
time, and Renew returned a copy of the renewed instance; at the Application
level the subsequent fetch does fail with NotFresh.  But the claimed final
`Registry.Fetch` with `sinceTimestamp` equal to that `latestTimestamp` does
not return the NotFresh error: it panics on the nil `*FetchData`
(src/registry.go:131-132), the `none` outcome. -/
theorem renew_frame_but_fetch_panics :
    (Registry.Renew r7 "e" "a" "h" 777).1 = .ok (copyInstance i7r) ∧
    (getApplication r7r "a" "e").map Application.latestTimestamp = some 100 ∧
    (getApplication r7r "a" "e").map Application.instances = some [("h", i7r)] ∧
    GetInstance app7r 1 100 = .error "latest timestamp is not latest" ∧
    Fetch r7r "e" "a" 1 100 = none := by decide

/-- Claim C6, counterexample.  Two registries that hold the identical
instance but whose Applications carry different current `latestTimestamp`
values (5 versus 10) produce identical successful Fetch results: the value
`Registry.Fetch` hands to the caller (src/registry.go:132 returns only
`c.Instances`) therefore cannot contain the Application's current
`latestTimestamp`. -/
theorem fetch_output_lacks_freshness_token_cx :
    Fetch r6a "e" "a" 1 0 = Fetch r6b "e" "a" 1 0 ∧
    Fetch r6a "e" "a" 1 0 = some (.ok [i6]) ∧
    (getApplication r6a "a" "e").map Application.latestTimestamp ≠
      (getApplication r6b "a" "e").map Application.latestTimestamp := by decide

/-- Claim C6, amended.  On every successful fetch the `FetchData` envelope
built by `Application.GetInstance` carries the deep copies of the matching
instances together with the Application's current `latestTimestamp`
(src/registry.go:223-226); `Registry.Fetch` succeeds and forwards exactly the
envelope's instance list, dropping the freshness token. -/
theorem getInstance_envelope_carries_latest
    (r : Registry) (e a : String) (app : Application) (st : Nat) (ts : Int) (fd : FetchData)
    (happ : getApplication r a e = some app)
    (hfd : GetInstance app st ts = .ok fd) :
    fd.LatestTimestamp = app.latestTimestamp ∧
    Fetch r e a st ts = some (.ok fd.Instances) := by
  constructor
  · unfold GetInstance at hfd
    by_cases h1 : app.latestTimestamp ≤ ts
    · simp [h1] at hfd
    · rw [if_neg h1] at hfd
      by_cases h2 : ((app.instances.map Prod.snd).filter
          (fun i => decide (0 < st &&& i.Status))).map copyInstance = []
      · simp [h2] at hfd
      · rw [if_neg h2] at hfd
        injection hfd with h3
        rw [← h3]
  · simp only [Fetch, happ, hfd]

theorem getInstance_envelope_carries_latest_w :
    ({ Instances := [copyInstance iC1], LatestTimestamp := 5 } : FetchData).LatestTimestamp
        = appC1.latestTimestamp ∧
    Fetch rC1 "e" "a" 1 0 =
      some (.ok ({ Instances := [copyInstance iC1], LatestTimestamp := 5 } : FetchData).Instances) :=
  getInstance_envelope_carries_latest rC1 "e" "a" appC1 1 0 _ (by decide) (by decide)

/-- Claim C9, counterexample.  The distinct pairs `("a", "b-c")` and
`("a-b", "c")` map to the same registry key `"a-b-c"`
(src/registry.go:177-179), so an instance registered under
`(appId "a", env "b-c")` is observed by a Fetch issued for
`(appId "a-b", env "c")`. -/
theorem key_collision_cx :
    (("a" : String), ("b-c" : String)) ≠ (("a-b" : String), ("c" : String)) ∧
    i9.AppId = "a" ∧ i9.Env = "b-c" ∧
    Fetch r9 "c" "a-b" 1 0 = some (.ok [i9]) := by decide

/-- Claim C9, amended.  Distinct `(appId, env)` pairs whose derived keys
`appId ++ "-" ++ env` differ denote distinct Applications: Register, Cancel
and Renew under one such pair leave the Fetch results of the other pair
unchanged.  Pairs whose keys collide through the hyphen ambiguity share one
Application, as the counterexample shows. -/
theorem distinct_keys_isolate_operations
    (r : Registry) (a1 e1 a2 e2 : String) (hk : getKey a1 e1 ≠ getKey a2 e2)
    (inst : Instance) (hA : inst.AppId = a1) (hE : inst.Env = e1)
    (lt t now ts : Int) (h : String) (st : Nat) :
    Fetch (Registry.Register r inst lt).1 e2 a2 st ts = Fetch r e2 a2 st ts ∧
    Fetch (Registry.Cancel r e1 a1 h t).2 e2 a2 st ts = Fetch r e2 a2 st ts ∧
    Fetch (Registry.Renew r e1 a1 h now).2 e2 a2 st ts = Fetch r e2 a2 st ts := by
  have hk2 : getKey a2 e2 ≠ getKey a1 e1 := Ne.symm hk
  refine ⟨fetch_congr _ _ _ _ _ _ ?_, fetch_congr _ _ _ _ _ _ ?_, fetch_congr _ _ _ _ _ _ ?_⟩
  · simp only [Registry.Register, getApplication, hA, hE]
    exact alookup_aupdate_ne _ _ hk2
  · cases hx : getApplication r a1 e1 with
    | none =>
      have hred : (Registry.Cancel r e1 a1 h t).2 = r := by simp [Registry.Cancel, hx]
      rw [hred]
    | some app =>
      cases hy : Application.Cancel app h t with
      | none =>
        have hred : (Registry.Cancel r e1 a1 h t).2 = r := by simp [Registry.Cancel, hx, hy]
        rw [hred]
      | some res =>
        obtain ⟨inst₀, app', n⟩ := res
        by_cases hn : n = 0
        · have hred : (Registry.Cancel r e1 a1 h t).2 = ⟨aerase r.apps (getKey a1 e1)⟩ := by
            simp [Registry.Cancel, hx, hy, hn]
          rw [hred]
          simp only [getApplication]
          exact alookup_aerase_ne _ hk2
        · have hred : (Registry.Cancel r e1 a1 h t).2 =
              ⟨aupdate r.apps (getKey a1 e1) app'⟩ := by
            simp [Registry.Cancel, hx, hy, hn]
          rw [hred]
          simp only [getApplication]
          exact alookup_aupdate_ne _ _ hk2
  · cases hx : getApplication r a1 e1 with
    | none =>
      have hred : (Registry.Renew r e1 a1 h now).2 = r := by simp [Registry.Renew, hx]
      rw [hred]
    | some app =>
      cases hy : Application.Renew app h now with
      | none =>
        have hred : (Registry.Renew r e1 a1 h now).2 = r := by simp [Registry.Renew, hx, hy]
        rw [hred]
      | some res =>
        obtain ⟨inst₀, app'⟩ := res
        have hred : (Registry.Renew r e1 a1 h now).2 =
            ⟨aupdate r.apps (getKey a1 e1) app'⟩ := by
          simp [Registry.Renew, hx, hy]
        rw [hred]
        simp only [getApplication]
        exact alookup_aupdate_ne _ _ hk2

theorem distinct_keys_isolate_operations_w :
    Fetch (Registry.Register rC1 i7 50).1 "e" "b" 1 0 = Fetch rC1 "e" "b" 1 0 ∧
    Fetch (Registry.Cancel rC1 "e" "a" "h" 50).2 "e" "b" 1 0 = Fetch rC1 "e" "b" 1 0 ∧
    Fetch (Registry.Renew rC1 "e" "a" "h" 50).2 "e" "b" 1 0 = Fetch rC1 "e" "b" 1 0 :=
  distinct_keys_isolate_operations rC1 "a" "e" "b" "e" (by decide) i7
    (by decide) (by decide) 50 50 50 0 "h" 1

/-- Claim C8 (confirmed).  Registering an instance under a previously absent
`(appId, env)` key and immediately fetching with a matching status mask and a
`sinceTimestamp` strictly below the supplied `latestTimestamp` returns
exactly the deep copy `copyInstance inst`, and at the value level that copy
equals `inst` on every field (the copy rebuilds the address list, so in the
Go heap it shares no mutable state with the stored record). -/
theorem register_fetch_roundtrip
    (r : Registry) (inst : Instance) (m : Nat) (s t : Int)
    (habs : getApplication r inst.AppId inst.Env = none)
    (hm : 0 < m &&& inst.Status) (hs : s < t) :
    Fetch (Registry.Register r inst t).1 inst.Env inst.AppId m s
      = some (.ok [copyInstance inst]) ∧ copyInstance inst = inst := by
  have hkey : alookup r.apps (getKey inst.AppId inst.Env) = none := habs
  have h1 : (Registry.Register r inst t).1 =
      ⟨aupdate r.apps (getKey inst.AppId inst.Env)
        { appId := inst.AppId, instances := [(inst.Hostname, inst)], latestTimestamp := t }⟩ := by
    simp [Registry.Register, hkey, AddInstance, NewApplication, alookup, aupdate]
  have hga : getApplication (Registry.Register r inst t).1 inst.AppId inst.Env =
      some { appId := inst.AppId, instances := [(inst.Hostname, inst)], latestTimestamp := t } := by
    rw [h1]
    simp only [getApplication]
    exact alookup_aupdate_self ..
  have hc1 : ¬ (({ appId := inst.AppId, instances := [(inst.Hostname, inst)], latestTimestamp := t } : Application).latestTimestamp ≤ s) :=
    not_le.mpr hs
  have hgi : GetInstance { appId := inst.AppId, instances := [(inst.Hostname, inst)], latestTimestamp := t } m s = .ok { Instances := [copyInstance inst], LatestTimestamp := t } := by
    simp [GetInstance, hc1, hm]
  constructor
  · simp [Fetch, hga, hgi]
  · simp [copyInstance, List.map_id]

theorem register_fetch_roundtrip_w :
    Fetch (Registry.Register (Registry.mk []) i7 100).1 i7.Env i7.AppId 1 0
      = some (.ok [copyInstance i7]) ∧ copyInstance i7 = i7 :=
  register_fetch_roundtrip (Registry.mk []) i7 1 0 100 (by decide) (by decide) (by decide)

theorem totalLen_aupdate (l : List (String × Application)) (k : String)
    (app app' : Application) (h : alookup l k = some app) :
    totalLen (aupdate l k app') + app.instances.length =
      totalLen l + app'.instances.length := by
  induction l with
  | nil => simp [alookup] at h
  | cons p t ih =>
    obtain ⟨k₀, a₀⟩ := p
    by_cases h₀ : k₀ = k
    · simp only [alookup, if_pos h₀] at h
      injection h with h'
      subst h'
      simp only [aupdate, if_pos h₀, totalLen]
      omega
    · simp only [alookup, if_neg h₀] at h
      simp only [aupdate, if_neg h₀, totalLen]
      have := ih h
      omega

theorem totalLen_aerase (l : List (String × Application)) (k : String)
    (app : Application) (h : alookup l k = some app) :
    totalLen (aerase l k) + app.instances.length = totalLen l := by
  induction l with
  | nil => simp [alookup] at h
  | cons p t ih =>
    obtain ⟨k₀, a₀⟩ := p
    by_cases h₀ : k₀ = k
    · simp only [alookup, if_pos h₀] at h
      injection h with h'
      subst h'
      simp only [aerase, if_pos h₀, totalLen]
      omega
    · simp only [alookup, if_neg h₀] at h
      simp only [aerase, if_neg h₀, totalLen]
      have := ih h
      omega

theorem appCancel_shape (app : Application) (h : String) (t : Int) (inst : Instance)
    (app' : Application) (n : Nat)
    (hy : Application.Cancel app h t = some (inst, app', n)) :
    app' = { app with instances := aerase app.instances h, latestTimestamp := t } ∧
    n = (aerase app.instances h).length := by
  unfold Application.Cancel at hy
  cases hz : alookup app.instances h with
  | none =>
    rw [hz] at hy
    exact absurd hy (by simp)
  | some appIn =>
    rw [hz] at hy
    simp only [Option.some.injEq, Prod.mk.injEq] at hy
    exact ⟨hy.2.1.symm, hy.2.2.symm⟩

theorem cancel_stored_total (r : Registry) (i : Instance) (t : Int)
    (hs : storedIn r i) :
    totalInstances (Registry.Cancel r i.Env i.AppId i.Hostname t).2 + 1 =
      totalInstances r := by
  obtain ⟨app, h1, h2⟩ := hs
  have hga : getApplication r i.AppId i.Env = some app := h1
  have hac : Application.Cancel app i.Hostname t = some ({ i with LatestTimestamp := t }, { app with instances := aerase app.instances i.Hostname, latestTimestamp := t }, (aerase app.instances i.Hostname).length) := by
    simp [Application.Cancel, h2]
  have hlen := length_aerase h2
  by_cases hn : (aerase app.instances i.Hostname).length = 0
  · have hred : (Registry.Cancel r i.Env i.AppId i.Hostname t).2 =
        ⟨aerase r.apps (getKey i.AppId i.Env)⟩ := by
      simp [Registry.Cancel, hga, hac, hn]
    rw [hred]
    have h3 := totalLen_aerase r.apps (getKey i.AppId i.Env) app h1
    show totalLen (aerase r.apps (getKey i.AppId i.Env)) + 1 = totalLen r.apps
    omega
  · have hred : (Registry.Cancel r i.Env i.AppId i.Hostname t).2 =
        ⟨aupdate r.apps (getKey i.AppId i.Env) { app with instances := aerase app.instances i.Hostname, latestTimestamp := t }⟩ := by
      simp [Registry.Cancel, hga, hac, hn]
    rw [hred]
    have h3 := totalLen_aupdate r.apps (getKey i.AppId i.Env) app
      { app with instances := aerase app.instances i.Hostname, latestTimestamp := t } h1
    have h4 : ({ app with instances := aerase app.instances i.Hostname, latestTimestamp := t } : Application).instances.length = (aerase app.instances i.Hostname).length := rfl
    rw [h4] at h3
    show totalLen (aupdate r.apps (getKey i.AppId i.Env) { app with instances := aerase app.instances i.Hostname, latestTimestamp := t }) + 1 = totalLen r.apps
    omega

theorem stored_cancel_other (r : Registry) (i i' : Instance) (t : Int)
    (hs : storedIn r i) (hs' : storedIn r i') (hne : i' ≠ i) :
    storedIn (Registry.Cancel r i.Env i.AppId i.Hostname t).2 i' := by
  obtain ⟨app, h1, h2⟩ := hs
  obtain ⟨appB, h1', h2'⟩ := hs'
  have hga : getApplication r i.AppId i.Env = some app := h1
  have hac : Application.Cancel app i.Hostname t = some ({ i with LatestTimestamp := t }, { app with instances := aerase app.instances i.Hostname, latestTimestamp := t }, (aerase app.instances i.Hostname).length) := by
    simp [Application.Cancel, h2]
  by_cases hk : getKey i'.AppId i'.Env = getKey i.AppId i.Env
  · have happeq : appB = app := by
      rw [hk] at h1'
      rw [h1] at h1'
      exact (Option.some.inj h1').symm
    subst happeq
    have hh : i'.Hostname ≠ i.Hostname := by
      intro he
      apply hne
      rw [he] at h2'
      rw [h2'] at h2
      exact Option.some.inj h2
    have hrest : alookup (aerase appB.instances i.Hostname) i'.Hostname = some i' := by
      rw [alookup_aerase_ne _ hh]
      exact h2'
    have hn : (aerase appB.instances i.Hostname).length ≠ 0 := by
      have := alookup_some_length_pos hrest
      omega
    have hred : (Registry.Cancel r i.Env i.AppId i.Hostname t).2 =
        ⟨aupdate r.apps (getKey i.AppId i.Env) { appB with instances := aerase appB.instances i.Hostname, latestTimestamp := t }⟩ := by
      simp [Registry.Cancel, hga, hac, hn]
    rw [hred]
    refine ⟨{ appB with instances := aerase appB.instances i.Hostname, latestTimestamp := t }, ?_, ?_⟩
    · show alookup (aupdate r.apps (getKey i.AppId i.Env) { appB with instances := aerase appB.instances i.Hostname, latestTimestamp := t }) (getKey i'.AppId i'.Env) = some { appB with instances := aerase appB.instances i.Hostname, latestTimestamp := t }
      rw [hk]
      exact alookup_aupdate_self ..
    · exact hrest
  · by_cases hn : (aerase app.instances i.Hostname).length = 0
    · have hred : (Registry.Cancel r i.Env i.AppId i.Hostname t).2 =
          ⟨aerase r.apps (getKey i.AppId i.Env)⟩ := by
        simp [Registry.Cancel, hga, hac, hn]
      rw [hred]
      refine ⟨appB, ?_, h2'⟩
      show alookup (aerase r.apps (getKey i.AppId i.Env)) (getKey i'.AppId i'.Env) = some appB
      rw [alookup_aerase_ne _ hk]
      exact h1'
    · have hred : (Registry.Cancel r i.Env i.AppId i.Hostname t).2 =
          ⟨aupdate r.apps (getKey i.AppId i.Env) { app with instances := aerase app.instances i.Hostname, latestTimestamp := t }⟩ := by
        simp [Registry.Cancel, hga, hac, hn]
      rw [hred]
      refine ⟨appB, ?_, h2'⟩
      show alookup (aupdate r.apps (getKey i.AppId i.Env) { app with instances := aerase app.instances i.Hostname, latestTimestamp := t }) (getKey i'.AppId i'.Env) = some appB
      rw [alookup_aupdate_ne _ _ hk]
      exact h1'

theorem cancelAll_total (l : List Instance) : ∀ (r : Registry) (now : Int),
    (∀ i ∈ l, storedIn r i) → l.Nodup →
    totalInstances (cancelAll r l now) + l.length = totalInstances r := by
  induction l with
  | nil =>
    intro r now _ _
    simp [cancelAll]
  | cons i tl ih =>
    intro r now hall hnd
    have hs : storedIn r i := hall i (List.mem_cons_self ..)
    have h1 := cancel_stored_total r i now hs
    have hnd' := List.nodup_cons.mp hnd
    have hall' : ∀ j ∈ tl, storedIn (Registry.Cancel r i.Env i.AppId i.Hostname now).2 j := by
      intro j hj
      exact stored_cancel_other r i j now hs (hall j (List.mem_cons_of_mem _ hj))
        (fun he => hnd'.1 (he ▸ hj))
    have h2 := ih (Registry.Cancel r i.Env i.AppId i.Hostname now).2 now hall' hnd'.2
    have hstep : cancelAll r (i :: tl) now =
        cancelAll (Registry.Cancel r i.Env i.AppId i.Hostname now).2 tl now := rfl
    rw [hstep, List.length_cons]
    omega

theorem getD_set_cons_perm {α : Type} (t : List α) (x : α) (j : Nat) :
    List.Perm (t.getD j x :: t.set j x) (x :: t) := by
  induction t generalizing j with
  | nil => exact List.Perm.refl _
  | cons a tl ih =>
    cases j with
    | zero => exact List.Perm.swap x a tl
    | succ m =>
      exact ((List.Perm.swap a (tl.getD m x) (tl.set m x)).trans
        ((ih m).cons a)).trans (List.Perm.swap x a tl)

theorem swapPick_perm {α : Type} (x : α) (t : List α) (j : Nat) :
    List.Perm ((swapPick x t j).1 :: (swapPick x t j).2) (x :: t) := by
  cases j with
  | zero => exact List.Perm.refl _
  | succ m => exact getD_set_cons_perm t x m

theorem swapPick_snd_length {α : Type} (x : α) (t : List α) (j : Nat) :
    (swapPick x t j).2.length = t.length := by
  cases j with
  | zero => rfl
  | succ m => simp [swapPick]

theorem selectExpired_length {α : Type} :
    ∀ (k : Nat) (l : List α) (f : Nat → Nat),
      (selectExpired l k f).length = min k l.length := by
  intro k
  induction k with
  | zero =>
    intro l f
    simp [selectExpired]
  | succ k ih =>
    intro l f
    cases l with
    | nil => simp [selectExpired]
    | cons x t =>
      simp only [selectExpired, List.length_cons]
      rw [ih, swapPick_snd_length]
      omega

theorem selectExpired_subperm {α : Type} :
    ∀ (k : Nat) (l : List α) (f : Nat → Nat), List.Subperm (selectExpired l k f) l := by
  intro k
  induction k with
  | zero =>
    intro l f
    simp only [selectExpired]
    exact List.nil_subperm
  | succ k ih =>
    intro l f
    cases l with
    | nil =>
      simp only [selectExpired]
      exact List.nil_subperm
    | cons x t =>
      simp only [selectExpired]
      refine List.Subperm.trans ?_ (swapPick_perm x t (f 0 % (x :: t).length)).subperm
      exact (List.subperm_cons _).mpr (ih _ _)

theorem subperm_nodup {α : Type} {l₁ l₂ : List α} (h : List.Subperm l₁ l₂)
    (hnd : l₂.Nodup) : l₁.Nodup := by
  obtain ⟨l, hp, hsub⟩ := h
  exact hp.nodup_iff.mp (hnd.sublist hsub)

theorem mem_expiredL {l : List (String × Application)} {now : Int} {i : Instance}
    (h : i ∈ expiredL now l) :
    staleThreshold < now - i.RenewTimestamp ∧
      ∃ p ∈ l, ∃ q ∈ p.2.instances, q.2 = i := by
  induction l with
  | nil => simp [expiredL] at h
  | cons p rest ih =>
    simp only [expiredL, List.mem_append] at h
    rcases h with h | h
    · rcases List.mem_filter.mp h with ⟨hmem, hpred⟩
      rcases List.mem_map.mp hmem with ⟨q, hq, hqe⟩
      exact ⟨by simpa using hpred, p, List.mem_cons_self .., q, hq, hqe⟩
    · rcases ih h with ⟨hp, p', hp', q, hq, he⟩
      exact ⟨hp, p', List.mem_cons_of_mem _ hp', q, hq, he⟩

theorem expired_storedIn (r : Registry) (now : Int) (hwf : WF r) :
    ∀ i ∈ expiredOf r now, storedIn r i := by
  intro i hi
  rcases mem_expiredL hi with ⟨-, p, hp, q, hq, he⟩
  have hok := hwf.2 p hp
  have hid := hok.2 q hq
  have h1 : alookup r.apps p.1 = some p.2 := alookup_of_mem (by simpa using hp) hwf.1
  have h2 : alookup p.2.instances q.1 = some q.2 := alookup_of_mem (by simpa using hq) hok.1
  subst he
  exact ⟨p.2, by rw [hid.1]; exact h1, by rw [hid.2]; exact h2⟩

theorem appEntryOk_snd_nodup {p : String × Application} (hok : appEntryOk p) :
    (p.2.instances.map Prod.snd).Nodup := by
  have h1 : ((p.2.instances.map Prod.snd).map Instance.Hostname).Nodup := by
    rw [List.map_map]
    have heq : p.2.instances.map (Instance.Hostname ∘ Prod.snd) =
        p.2.instances.map Prod.fst :=
      List.map_congr_left (fun q hq => (hok.2 q hq).2)
    rw [heq]
    exact hok.1
  exact h1.of_map _

theorem mem_snd_getKey {p : String × Application} (hok : appEntryOk p) {i : Instance}
    (h : i ∈ p.2.instances.map Prod.snd) : getKey i.AppId i.Env = p.1 := by
  rcases List.mem_map.mp h with ⟨q, hq, he⟩
  subst he
  exact (hok.2 q hq).1

theorem expiredL_nodup (now : Int) :
    ∀ (l : List (String × Application)), (l.map Prod.fst).Nodup →
      (∀ p ∈ l, appEntryOk p) → (expiredL now l).Nodup := by
  intro l
  induction l with
  | nil =>
    intro _ _
    simp [expiredL]
  | cons p rest ih =>
    intro hk hok
    simp only [List.map_cons, List.nodup_cons] at hk
    have hokp := hok p (List.mem_cons_self ..)
    simp only [expiredL]
    rw [List.nodup_append]
    refine ⟨(appEntryOk_snd_nodup hokp).filter _,
      ih hk.2 (fun q hq => hok q (List.mem_cons_of_mem _ hq)), ?_⟩
    intro x hx hx'
    have htag1 : getKey x.AppId x.Env = p.1 :=
      mem_snd_getKey hokp (List.mem_filter.mp hx).1
    rcases mem_expiredL hx' with ⟨-, p', hp', q', hq', he⟩
    have htag2 : getKey x.AppId x.Env = p'.1 := by
      subst he
      exact ((hok p' (List.mem_cons_of_mem _ hp')).2 q' hq').1
    apply hk.1
    rw [htag1] at htag2
    rw [htag2]
    exact List.mem_map.mpr ⟨p', hp', rfl⟩

theorem expiredOf_nodup (r : Registry) (now : Int) (hwf : WF r) :
    (expiredOf r now).Nodup := expiredL_nodup now r.apps hwf.1 hwf.2

theorem evict_total (r : Registry) (now : Int) (f : Nat → Nat) (hwf : WF r) :
    totalInstances (evict r now f) +
      min (expiredOf r now).length (totalInstances r - totalInstances r * 85 / 100) =
      totalInstances r := by
  have hexp := expired_storedIn r now hwf
  have hnd := expiredOf_nodup r now hwf
  simp only [evict]
  by_cases hgt : (expiredOf r now).length > totalInstances r - totalInstances r * 85 / 100
  · rw [if_pos hgt]
    by_cases h0 : totalInstances r - totalInstances r * 85 / 100 = 0
    · rw [if_pos h0]
      omega
    · rw [if_neg h0]
      have hlen : (selectExpired (expiredOf r now)
          (totalInstances r - totalInstances r * 85 / 100) f).length =
          totalInstances r - totalInstances r * 85 / 100 := by
        rw [selectExpired_length]
        omega
      have hsub := selectExpired_subperm
        (totalInstances r - totalInstances r * 85 / 100) (expiredOf r now) f
      have hstored : ∀ i ∈ selectExpired (expiredOf r now)
          (totalInstances r - totalInstances r * 85 / 100) f, storedIn r i :=
        fun i hi => hexp i (hsub.subset hi)
      have hdone := cancelAll_total _ r now hstored (subperm_nodup hsub hnd)
      rw [hlen] at hdone
      omega
  · rw [if_neg hgt]
    by_cases h0 : (expiredOf r now).length = 0
    · rw [if_pos h0]
      omega
    · rw [if_neg h0]
      have hlen : (selectExpired (expiredOf r now) (expiredOf r now).length f).length =
          (expiredOf r now).length := by
        rw [selectExpired_length]
        omega
      have hsub := selectExpired_subperm (expiredOf r now).length (expiredOf r now) f
      have hstored : ∀ i ∈ selectExpired (expiredOf r now) (expiredOf r now).length f,
          storedIn r i := fun i hi => hexp i (hsub.subset hi)
      have hdone := cancelAll_total _ r now hstored (subperm_nodup hsub hnd)
      rw [hlen] at hdone
      omega

/-- Claim C3 (confirmed).  For a well-formed registry (unique keys and
instances stored under their own identity fields, which holds for every state
the Go maps can be in), one eviction pass removes exactly
`min(E, N - floor(N*0.85))` instances, where `E` counts the instances with
`now - RenewTimestamp` strictly above the 90-second staleness threshold and
`N` is the total population; every removal goes through the public
`Registry.Cancel` path (see `cancelAll`), whatever the random draws are. -/
theorem evict_cancels_min_expired_cap (r : Registry) (now : Int) (f : Nat → Nat)
    (hwf : WF r) :
    totalInstances r - totalInstances (evict r now f) =
      min (expiredOf r now).length (totalInstances r - totalInstances r * 85 / 100) := by
  have := evict_total r now f hwf
  omega

theorem evict_cancels_min_expired_cap_w :
    WF rE ∧ totalInstances rE - totalInstances (evict rE 200000000000 (fun _ => 0)) =
      min (expiredOf rE 200000000000).length
        (totalInstances rE - totalInstances rE * 85 / 100) :=
  ⟨by decide, evict_cancels_min_expired_cap rE 200000000000 (fun _ => 0) (by decide)⟩

/-- Claim C5, counterexample.  With one registered instance that is expired
(`rD` at time 200e9), the eviction pass removes it: 1 instance evicted out of
a population of 1, and 1 is not at most `0.15 * 1`.  The claimed bound
`evicted <= 0.15 * N` therefore fails for N = 1. -/
theorem eviction_exceeds_fifteen_percent_cx :
    totalInstances rD = 1 ∧
    totalInstances (evict rD 200000000000 (fun _ => 0)) = 0 ∧
    ¬ (((totalInstances rD - totalInstances (evict rD 200000000000 (fun _ => 0)) : Nat) : ℚ)
        ≤ (15 / 100 : ℚ) * ((totalInstances rD : Nat) : ℚ)) := by
  refine ⟨by decide, by decide, ?_⟩
  rw [show totalInstances rD = 1 from by decide,
    show totalInstances (evict rD 200000000000 (fun _ => 0)) = 0 from by decide]
  norm_num

/-- Claim C5, amended.  A single eviction pass removes at most
`N - floor(N*0.85)` instances, the cap computed by the code
(src/registry.go:77-81); this equals `ceil(0.15*N)` and can strictly exceed
`0.15*N` when `N` is not a multiple of 20, as the counterexample with `N = 1`
shows. -/
theorem eviction_bounded_by_cap (r : Registry) (now : Int) (f : Nat → Nat)
    (hwf : WF r) :
    totalInstances r - totalInstances (evict r now f) ≤
      totalInstances r - totalInstances r * 85 / 100 := by
  have := evict_total r now f hwf
  omega

theorem eviction_bounded_by_cap_w :
    WF rD ∧ totalInstances rD - totalInstances (evict rD 200000000000 (fun _ => 0)) ≤
      totalInstances rD - totalInstances rD * 85 / 100 :=
  ⟨by decide, eviction_bounded_by_cap rD 200000000000 (fun _ => 0) (by decide)⟩

theorem addInstance_instances_ne_nil (app : Application) (i : Instance) (t : Int) :
    (AddInstance app i t).1.instances ≠ [] := by
  cases h : alookup app.instances i.Hostname with
  | none =>
    have hred : (AddInstance app i t).1 = { app with instances := aupdate app.instances i.Hostname i, latestTimestamp := t } := by
      simp [AddInstance, h]
    rw [hred]
    exact aupdate_ne_nil _ _ _
  | some appIns =>
    by_cases hd : i.DirtyTimestamp < appIns.DirtyTimestamp
    · have hred : (AddInstance app i t).1 = { app with instances := aupdate app.instances appIns.Hostname appIns, latestTimestamp := t } := by
        simp [AddInstance, h, hd]
      rw [hred]
      exact aupdate_ne_nil _ _ _
    · have hred : (AddInstance app i t).1 = { app with instances := aupdate app.instances i.Hostname { i with UpTimestamp := appIns.UpTimestamp }, latestTimestamp := t } := by
        simp [AddInstance, h, hd]
      rw [hred]
      exact aupdate_ne_nil _ _ _

theorem inv_register (r : Registry) (i : Instance) (t : Int) (hinv : Inv r) :
    Inv (Registry.Register r i t).1 := by
  obtain ⟨hk, hne⟩ := hinv
  refine ⟨nodup_keys_aupdate _ _ hk, fun p hp => ?_⟩
  rcases mem_aupdate hp with h | h
  · exact hne p h
  · rw [h]
    exact addInstance_instances_ne_nil _ i t

theorem inv_cancel (r : Registry) (e a h : String) (t : Int) (hinv : Inv r) :
    Inv (Registry.Cancel r e a h t).2 := by
  obtain ⟨hk, hne⟩ := hinv
  cases hx : getApplication r a e with
  | none =>
    have hred : (Registry.Cancel r e a h t).2 = r := by simp [Registry.Cancel, hx]
    rw [hred]
    exact ⟨hk, hne⟩
  | some app =>
    cases hy : Application.Cancel app h t with
    | none =>
      have hred : (Registry.Cancel r e a h t).2 = r := by simp [Registry.Cancel, hx, hy]
      rw [hred]
      exact ⟨hk, hne⟩
    | some res =>
      obtain ⟨inst₀, app', n⟩ := res
      obtain ⟨happ', hn⟩ := appCancel_shape app h t inst₀ app' n hy
      by_cases hz : n = 0
      · have hred : (Registry.Cancel r e a h t).2 = ⟨aerase r.apps (getKey a e)⟩ := by
          simp [Registry.Cancel, hx, hy, hz]
        rw [hred]
        exact ⟨nodup_keys_aerase _ hk, fun p hp => hne p (mem_aerase hp)⟩
      · have hred : (Registry.Cancel r e a h t).2 = ⟨aupdate r.apps (getKey a e) app'⟩ := by
          simp [Registry.Cancel, hx, hy, hz]
        rw [hred]
        refine ⟨nodup_keys_aupdate _ _ hk, fun p hp => ?_⟩
        rcases mem_aupdate hp with hmem | heq
        · exact hne p hmem
        · rw [heq, happ']
          show aerase app.instances h ≠ []
          intro hnil
          apply hz
          rw [hn, hnil]
          rfl

theorem inv_renew (r : Registry) (e a h : String) (now : Int) (hinv : Inv r) :
    Inv (Registry.Renew r e a h now).2 := by
  obtain ⟨hk, hne⟩ := hinv
  cases hx : getApplication r a e with
  | none =>
    have hred : (Registry.Renew r e a h now).2 = r := by simp [Registry.Renew, hx]
    rw [hred]
    exact ⟨hk, hne⟩
  | some app =>
    cases hy : Application.Renew app h now with
    | none =>
      have hred : (Registry.Renew r e a h now).2 = r := by simp [Registry.Renew, hx, hy]
      rw [hred]
      exact ⟨hk, hne⟩
    | some res =>
      obtain ⟨inst₀, app'⟩ := res
      have hy' := hy
      unfold Application.Renew at hy'
      cases hz : alookup app.instances h with
      | none =>
        rw [hz] at hy'
        exact absurd hy' (by simp)
      | some appIn =>
        rw [hz] at hy'
        simp only [Option.some.injEq, Prod.mk.injEq] at hy'
        have happ' : app' = { app with instances := aupdate app.instances h { appIn with RenewTimestamp := now } } := hy'.2.symm
        have hred : (Registry.Renew r e a h now).2 = ⟨aupdate r.apps (getKey a e) app'⟩ := by
          simp [Registry.Renew, hx, hy]
        rw [hred]
        refine ⟨nodup_keys_aupdate _ _ hk, fun p hp => ?_⟩
        rcases mem_aupdate hp with hmem | heq
        · exact hne p hmem
        · rw [heq, happ']
          show aupdate app.instances h { appIn with RenewTimestamp := now } ≠ []
          exact aupdate_ne_nil _ _ _

theorem inv_cancelAll (l : List Instance) : ∀ (r : Registry) (now : Int), Inv r →
    Inv (cancelAll r l now) := by
  induction l with
  | nil =>
    intro r now hinv
    exact hinv
  | cons i tl ih =>
    intro r now hinv
    exact ih (Registry.Cancel r i.Env i.AppId i.Hostname now).2 now
      (inv_cancel r i.Env i.AppId i.Hostname now hinv)

theorem inv_evict (r : Registry) (now : Int) (f : Nat → Nat) (hinv : Inv r) :
    Inv (evict r now f) := by
  simp only [evict]
  split <;> split
  · exact hinv
  · exact inv_cancelAll _ r now hinv
  · exact hinv
  · exact inv_cancelAll _ r now hinv

theorem reachable_inv (r : Registry) (h : Reachable r) : Inv r := by
  induction h with
  | init => exact ⟨List.nodup_nil, fun p hp => absurd hp (List.not_mem_nil p)⟩
  | register r i t _ ih => exact inv_register r i t ih
  | cancel r e a h t _ ih => exact inv_cancel r e a h t ih
  | renew r e a h now _ ih => exact inv_renew r e a h now ih
  | evictPass r now f _ ih => exact inv_evict r now f ih

/-- Claim C4 (confirmed).  In every reachable registry state, an Application
entry present in the registry map has a non-empty instance map (Register
always inserts an instance before storing the Application back, and the only
operation that can empty an Application, Cancel, deletes its map entry in the
same call); and cancelling the last instance of an Application deletes the
entry, so a subsequent Fetch for the same `(appId, env)` fails with the
AppNotFound error (this is the one degraded Fetch path that returns an
ordinary error instead of panicking). -/
theorem app_entries_nonempty_cancel_last_deletes
    (r : Registry) (hre : Reachable r) (k : String) (app : Application)
    (hl : alookup r.apps k = some app)
    (e a h₀ : String) (i : Instance) (t : Int) (app₂ : Application)
    (hga : getApplication r a e = some app₂) (hone : app₂.instances = [(h₀, i)])
    (st : Nat) (ts : Int) :
    app.instances ≠ [] ∧
    Fetch (Registry.Cancel r e a h₀ t).2 e a st ts = some (.error "app not found") := by
  have hinv := reachable_inv r hre
  constructor
  · exact hinv.2 (k, app) (mem_of_alookup hl)
  · have hac : Application.Cancel app₂ h₀ t = some ({ i with LatestTimestamp := t }, { app₂ with instances := [], latestTimestamp := t }, 0) := by
      simp [Application.Cancel, hone, alookup, aerase]
    have hred : (Registry.Cancel r e a h₀ t).2 = ⟨aerase r.apps (getKey a e)⟩ := by
      simp [Registry.Cancel, hga, hac]
    rw [hred]
    have hnone : getApplication (⟨aerase r.apps (getKey a e)⟩ : Registry) a e = none := by
      simp only [getApplication]
      exact alookup_aerase_self _ hinv.1
    simp [Fetch, hnone]

theorem app_entries_nonempty_cancel_last_deletes_w :
    appW4.instances ≠ [] ∧
    Fetch (Registry.Cancel rW4 "e" "a" "h" 9).2 "e" "a" 1 0 =
      some (.error "app not found") :=
  app_entries_nonempty_cancel_last_deletes rW4
    (Reachable.register ⟨[]⟩ i7 5 Reachable.init) "a-e" appW4 (by decide)
    "e" "a" "h" i7 9 appW4 (by decide) (by decide) 1 0

end RegistryCenter
